import Mathlib

/-!
Verification development for a small interactive shell (single Rust source
file, `src/main.rs`).  The shell reads a line, splits on the pipe character,
tokenizes each segment with the `shlex` crate's iterator, extracts
redirection operators, resolves the command name against a closed set of
built-ins or a PATH search, and executes either a single command or a
pipeline of stages, reaping spawned children in reverse order.

The embedding below translates the relevant functions of the source into
executable Lean definitions.  Operating-system effects (spawning, waiting,
file opening and writing, the home directory, directory changes) are
abstracted into an oracle structure `Os`; the file system visible to the
PATH search is a list of `PathEntry`.  Observable actions of a pipeline are
collected into a trace of `Event`s.
-/

/-! ## Characters that are special to the tokenizer

Named characters, used instead of literals for the quote characters. -/

def squote : Char := Char.ofNat 39

def dquote : Char := Char.ofNat 34

def bslash : Char := Char.ofNat 92

def btick : Char := Char.ofNat 96

/-- Whitespace as recognised by the `shlex` iterator: space, tab, newline. -/
def isWs (c : Char) : Bool :=
  c == ' ' || c == '\t' || c == '\n'

/-! ## Tokenizer

Model of the `shlex` crate's `Shlex` iterator (the repository's tokenizer,
`Shlex::new` at main.rs:171 and main.rs:303).  The crate's iterator is a
char-by-char loop with nested loops for comment skipping, word parsing,
single-quoted runs and double-quoted runs; here each nested loop is a phase
of one structurally recursive function `tokLoop` over the remaining
characters.  On an unterminated quote (or a trailing bare backslash) the
crate sets an internal `had_error` flag, emits the partial word, and ends
iteration; `tokLoop` returns that flag as the `Bool` component.  The
repository never reads the flag. -/

inductive TPhase where
  | skip
  | comment
  | word
  | single
  | double
deriving DecidableEq

/-- One pass of the `shlex` iterator automaton.  `ph` is the current nested
loop of the crate's code, `acc` the word collected so far, `toks` the tokens
already emitted.  Returns all tokens of the rest of the input together with
the `had_error` flag. -/
def tokLoop (ph : TPhase) (acc : List Char) (toks : List String) :
    List Char → List String × Bool
  | [] =>
    match ph with
    | .skip => (toks, false)
    | .comment => (toks, false)
    | .word => (toks ++ [String.mk acc], false)
    | .single => (toks ++ [String.mk acc], true)
    | .double => (toks ++ [String.mk acc], true)
  | c :: cs =>
    match ph with
    | .comment =>
      if c = '\n' then tokLoop .skip [] toks cs else tokLoop .comment [] toks cs
    | .skip =>
      if isWs c then tokLoop .skip [] toks cs
      else if c = '#' then tokLoop .comment [] toks cs
      else if c = dquote then tokLoop .double [] toks cs
      else if c = squote then tokLoop .single [] toks cs
      else if c = bslash then
        match cs with
        | [] => (toks ++ [String.mk []], true)
        | c2 :: cs2 => tokLoop .word (if c2 = '\n' then [] else [c2]) toks cs2
      else tokLoop .word [c] toks cs
    | .word =>
      if isWs c then tokLoop .skip [] (toks ++ [String.mk acc]) cs
      else if c = dquote then tokLoop .double acc toks cs
      else if c = squote then tokLoop .single acc toks cs
      else if c = bslash then
        match cs with
        | [] => (toks ++ [String.mk acc], true)
        | c2 :: cs2 => tokLoop .word (if c2 = '\n' then acc else acc ++ [c2]) toks cs2
      else tokLoop .word (acc ++ [c]) toks cs
    | .single =>
      if c = squote then tokLoop .word acc toks cs
      else tokLoop .single (acc ++ [c]) toks cs
    | .double =>
      if c = bslash then
        match cs with
        | [] => (toks ++ [String.mk acc], true)
        | c2 :: cs2 =>
          if c2 = '$' || c2 = btick || c2 = dquote || c2 = bslash then
            tokLoop .double (acc ++ [c2]) toks cs2
          else if c2 = '\n' then tokLoop .double acc toks cs2
          else tokLoop .double (acc ++ [bslash, c2]) toks cs2
      else if c = dquote then tokLoop .word acc toks cs
      else tokLoop .double (acc ++ [c]) toks cs

/-- `tokenize cs` is the full token sequence produced by iterating
`Shlex::new` over `cs`, paired with the iterator's `had_error` flag. -/
def tokenize (cs : List Char) : List String × Bool :=
  tokLoop .skip [] [] cs

/-! ## Pipeline splitting (main.rs:162-163) -/

/-- Rust `str::split('|')`: every occurrence of the pipe character separates
two (possibly empty) segments. -/
def splitPipe : List Char → List (List Char)
  | [] => [[]]
  | c :: cs =>
    if c = '|' then [] :: splitPipe cs
    else
      match splitPipe cs with
      | [] => [[c]]
      | s :: ss => (c :: s) :: ss

/-- Rust `str::trim` (leading and trailing whitespace removed). -/
def trimChars (cs : List Char) : List Char :=
  ((cs.dropWhile Char.isWhitespace).reverse.dropWhile Char.isWhitespace).reverse

/-- `readline.split('|').map(|s| s.trim())` from main.rs:163. -/
def splitLine (s : String) : List String :=
  (splitPipe s.data).map (fun cs => String.mk (trimChars cs))

/-- `args.join(" ")` as used by the echo built-in. -/
def joinSpace (xs : List String) : String :=
  String.intercalate " " xs

/-! ## Operating-system oracle

All fallible interactions with the operating system are decided by this
oracle: whether a spawn, a pipe write, a wait, a file open, a file write or
a directory change succeeds, and what the home directory is.  Pipeline
stages are identified by their zero-based index. -/

structure Os where
  spawnOk : Nat → Bool
  writeOk : Nat → Bool
  waitOk : Nat → Bool
  openOk : String → Bool
  fileWriteOk : String → Bool
  homeDir : Option String
  chdirOk : String → Bool
  spawnMainOk : Bool
  waitMainOk : Bool

/-- Oracle on which every operation succeeds. -/
def os0 : Os :=
  ⟨fun _ => true, fun _ => true, fun _ => true, fun _ => true, fun _ => true,
   some "/home/user", fun _ => true, true, true⟩

/-! ## Redirection extraction (`Parser`, main.rs:474-525) -/

/-- File-open mode of a redirection target: `>`, `1>`, `2>` truncate (via
`File::create`); `>>`, `1>>`, `2>>` append (via
`File::options().append(true).create(true)`). -/
inductive Mode where
  | truncate
  | append
deriving DecidableEq

/-- The `stdout`/`stderr` fields of the Rust `Parser` struct: the last
redirection target recorded for each stream, with its open mode. -/
structure RedirState where
  stdout : Option (String × Mode)
  stderr : Option (String × Mode)
deriving DecidableEq

/-- Classifies a token as a redirection operator, giving the target stream
(`true` = stderr) and open mode, following the else-if chain of
`Parser::next` (main.rs:497-521). -/
def opKind (t : String) : Option (Bool × Mode) :=
  if t = ">" || t = "1>" then some (false, .truncate)
  else if t = "2>" then some (true, .truncate)
  else if t = ">>" || t = "1>>" then some (false, .append)
  else if t = "2>>" then some (true, .append)
  else none

/-- Driving `Parser::next` to exhaustion (as `args.collect()` does in the
echo path, or `settings.args(&mut args)` in `run_command`): returns the
yielded argument tokens and the final redirection state.  Per call,
`Parser::next` takes one token; if it is an operator it opens the following
token as the target (`unwrap` panics when the open fails — modelled as
`.error target`), stores it in the stream slot, and returns the token after
the target *without examining it*; if either following token is missing the
iteration simply ends. -/
def parserRun (os : Os) (st : RedirState) : List String → Except String (List String × RedirState)
  | [] => .ok ([], st)
  | t :: rest =>
    match opKind t with
    | none =>
      match parserRun os st rest with
      | .ok (args2, st2) => .ok (t :: args2, st2)
      | .error e => .error e
    | some (isErr, mode) =>
      match rest with
      | [] => .ok ([], st)
      | target :: rest2 =>
        if os.openOk target then
          let st' := if isErr then { st with stderr := some (target, mode) }
                     else { st with stdout := some (target, mode) }
          match rest2 with
          | [] => .ok ([], st')
          | a :: rest3 =>
            match parserRun os st' rest3 with
            | .ok (args2, st2) => .ok (a :: args2, st2)
            | .error e => .error e
        else .error target

/-! ## Command resolution (`command_type`, main.rs:251-277) -/

/-- An entry of a directory on the search path: its file name and whether
`is_executable` holds for it. -/
structure DirEntry where
  name : String
  exec : Bool
deriving DecidableEq

/-- One entry of the PATH list as the search sees it: the path string,
whether `path.is_dir()` holds, the result of `path.read_dir()` (`none`
models a failing `read_dir`), and whether `is_executable(&path)` holds for
the entry itself. -/
structure PathEntry where
  path : String
  isDir : Bool
  entries : Option (List DirEntry)
  exec : Bool

/-- The `Command` enum (main.rs:58-66). -/
inductive Command where
  | exit
  | echo
  | pwd
  | cd
  | type
  | history
  | program (path : String)
deriving DecidableEq

/-- Rust `Path::file_stem` restricted to plain file names: the portion
before the last dot, or the whole name when there is no dot or the only dot
is leading. `beforeLastDot` returns the part before the last dot, if any. -/
def beforeLastDot : List Char → Option (List Char)
  | [] => none
  | c :: rest =>
    match beforeLastDot rest with
    | some r => some (c :: r)
    | none => if c = '.' then some [] else none

def fileStem (s : String) : String :=
  match beforeLastDot s.data with
  | some pre => if pre.isEmpty then s else String.mk pre
  | none => s

/-- Splitting a path at every slash. -/
def splitSlash : List Char → List (List Char)
  | [] => [[]]
  | c :: cs =>
    if c = '/' then [] :: splitSlash cs
    else
      match splitSlash cs with
      | [] => [[c]]
      | s :: ss => (c :: s) :: ss

/-- Rust `Path::file_name` for ordinary absolute/relative unix paths: the
last slash-separated component, `none` for the root or a path ending in
`..` (empty and `.` components are skipped, as path components are). -/
def fileNameOf (p : String) : Option String :=
  match ((splitSlash p.data).filter (fun c => c ≠ [] && c ≠ ['.'])).getLast? with
  | none => none
  | some c => if c = ['.', '.'] then none else some (String.mk c)

/-- The inner directory scan of `command_type` (main.rs:262-268): the first
entry whose file stem equals the name and which is executable wins. -/
def findProgram (dir com : String) : List DirEntry → Option String
  | [] => none
  | e :: es =>
    if fileStem e.name = com && e.exec then some (dir ++ "/" ++ e.name)
    else findProgram dir com es

/-- The PATH search of `command_type` (main.rs:259-275).  The closure passed
to `and_then` uses `?` on `read_dir().ok()` and on `path.file_name()`, so a
directory that exists but cannot be read — or an executable path entry
without a file name — aborts the *entire* search with `none`. -/
def searchPath (com : String) : List PathEntry → Option Command
  | [] => none
  | p :: ps =>
    let dirScan : Except Unit (Option String) :=
      if p.isDir then
        match p.entries with
        | none => .error ()
        | some es => .ok (findProgram p.path com es)
      else .ok none
    match dirScan with
    | .error () => none
    | .ok (some found) => some (.program found)
    | .ok none =>
      if p.exec then
        match fileNameOf p.path with
        | none => none
        | some n => if n = com then some (.program p.path) else searchPath com ps
      else searchPath com ps

/-- `command_type` (main.rs:251-277): the closed built-in set, then the PATH
search. -/
def command_type (fs : List PathEntry) (com : String) : Option Command :=
  if com = "exit" then some .exit
  else if com = "echo" then some .echo
  else if com = "cd" then some .cd
  else if com = "pwd" then some .pwd
  else if com = "history" then some .history
  else if com = "type" then some .type
  else searchPath com fs

/-- The names resolved as built-ins by `command_type`. -/
def shellBuiltins : List String := ["exit", "echo", "cd", "pwd", "history", "type"]

/-! ## Pipeline execution (`execute_pipeline`, main.rs:294-380) -/

/-- The `PipeOutput` enum (main.rs:382-385): the previous stage's output,
either a live child stdout (tagged with the stage index that produced it)
or an in-memory buffer from a built-in. -/
inductive PipeOutput where
  | childStdout (stage : Nat)
  | buffer (content : String)
deriving DecidableEq

/-- Observable actions of the engine: spawning the process of stage `i`,
writing buffered output into stage `i`'s stdin, successfully waiting on the
child of stage `i`, running a built-in in-process at stage `i`, printing a
line to the terminal. -/
inductive Event where
  | spawn (i : Nat)
  | write (i : Nat)
  | wait (i : Nat)
  | runBuiltin (i : Nat)
  | print (s : String)
deriving DecidableEq

/-- `execute_builtin_in_pipeline` (main.rs:387-433): echo, type and pwd
either print directly (when the stage is last, `needs_output = false`) or
capture their text into a buffer.  The function always returns
`Ok(PipeOutput::Buffer(output))`, `output` being empty when it printed. -/
def execute_builtin_in_pipeline (fs : List PathEntry) (cwd com : String)
    (args : List String) (needsOutput : Bool) : List Event × Except String PipeOutput :=
  if com = "echo" then
    let arg := joinSpace args
    if needsOutput then ([], .ok (.buffer (arg ++ "\n")))
    else ([.print arg], .ok (.buffer ""))
  else if com = "type" then
    match args.head? with
    | some name =>
      let result :=
        match command_type fs name with
        | some (.program p) => name ++ " is " ++ p
        | some _ => name ++ " is a shell builtin"
        | none => name ++ ": not found"
      if needsOutput then ([], .ok (.buffer (result ++ "\n")))
      else ([.print result], .ok (.buffer ""))
    | none => ([], .ok (.buffer ""))
  else if com = "pwd" then
    if needsOutput then ([], .ok (.buffer (cwd ++ "\n")))
    else ([.print cwd], .ok (.buffer ""))
  else ([], .error ("Unknown builtin: " ++ com))

/-- The stage loop of `execute_pipeline` (main.rs:302-373).  `i` is the
stage index, `children` the indices of already-spawned children in spawn
order, `prev` the pending `previous_output`.  Errors (`bail!`, failed
`context`, the `?` on `write_all`) return immediately — before the wait
loop.  On success it returns the final `children` vector. -/
def stageLoop (fs : List PathEntry) (os : Os) (cwd : String) :
    Nat → List String → List Nat → Option PipeOutput →
    List Event × Except String (List Nat)
  | _, [], children, _ => ([], .ok children)
  | i, cmd :: rest, children, prev =>
    match (tokenize cmd.data).1 with
    | [] => ([], .error "parsing command")
    | com :: args =>
      let isLast := rest.isEmpty
      match command_type fs com with
      | some .echo | some .type | some .pwd =>
        match execute_builtin_in_pipeline fs cwd com args (!isLast) with
        | (evs, .error e) => (.runBuiltin i :: evs, .error e)
        | (evs, .ok out) =>
          let prev' := if isLast then prev else some out
          let p := stageLoop fs os cwd (i + 1) rest children prev'
          (.runBuiltin i :: evs ++ p.1, p.2)
      | some (.program _) =>
        match prev with
        | some (.buffer _) =>
          if os.spawnOk i then
            if os.writeOk i then
              let prev' := if isLast then none else some (.childStdout i)
              let p := stageLoop fs os cwd (i + 1) rest (children ++ [i]) prev'
              (.spawn i :: .write i :: p.1, p.2)
            else ([.spawn i], .error "broken pipe")
          else ([], .error ("spawn process " ++ toString i))
        | _ =>
          if os.spawnOk i then
            let prev' := if isLast then none else some (.childStdout i)
            let p := stageLoop fs os cwd (i + 1) rest (children ++ [i]) prev'
            (.spawn i :: p.1, p.2)
          else ([], .error ("spawn process " ++ toString i))
      | some .cd | some .history | some .exit =>
        ([], .error (com ++ " cannot be used in pipelines"))
      | none => ([], .error (com ++ ": command not found"))

/-- The reap loop of `execute_pipeline` (main.rs:375-377), already given the
reversed `children` list (`children.iter_mut().rev()`).  A failing
`child.wait()` returns the error immediately, leaving the remaining
children unwaited. -/
def waitLoop (os : Os) : List Nat → List Event × Except String Unit
  | [] => ([], .ok ())
  | c :: cs =>
    if os.waitOk c then
      let p := waitLoop os cs
      (.wait c :: p.1, p.2)
    else ([], .error "wait for process")

/-- `execute_pipeline` (main.rs:294-380): rejects fewer than two segments,
runs the stage loop, and only when that loop finishes without error reaps
every spawned child in reverse spawn order. -/
def execute_pipeline (fs : List PathEntry) (os : Os) (cwd : String)
    (commands : List String) : List Event × Except String Unit :=
  if commands.length < 2 then ([], .error "Pipeline must have at least 2 commands")
  else
    match stageLoop fs os cwd 0 commands [] none with
    | (tr, .error e) => (tr, .error e)
    | (tr, .ok children) =>
      let p := waitLoop os children.reverse
      (tr ++ p.1, p.2)

/-- Stage indices of the spawn events of a trace, in order. -/
def spawnsOf (tr : List Event) : List Nat :=
  tr.filterMap fun e => match e with | .spawn i => some i | _ => none

/-- Stage indices of the successful wait events of a trace, in order. -/
def waitsOf (tr : List Event) : List Nat :=
  tr.filterMap fun e => match e with | .wait i => some i | _ => none

/-- Lines printed to the terminal in a trace, in order. -/
def printsOf (tr : List Event) : List String :=
  tr.filterMap fun e => match e with | .print s => some s | _ => none

/-! ## The read-eval loop body (main.rs:159-246)

One iteration of the `loop` in `main`, given the line returned by
`rl.readline`.  In the Rust code, `?` on a failed `context(..)` propagates
the error out of `main`, terminating the interpreter; an `unwrap` panic
(redirection file open, main.rs:498) aborts the process.  Both are modelled
as terminal outcomes, distinct from `cont` (the loop continues) and
`exitLoop` (the `exit` built-in breaks the loop). -/

inductive LineOutcome where
  | cont
  | exitLoop
  | fatal (msg : String)
  | panicked (msg : String)
deriving DecidableEq

/-- `HistoryInfo::new` (main.rs:532-545): `-r` takes the following token as
a file, any other token must parse as a number; both failures propagate via
`context(..)?`. -/
def historyInfo : List String → Option String → Option Nat →
    Except String (Option String × Option Nat)
  | [], r, n => .ok (r, n)
  | t :: ts, r, n =>
    if t = "-r" then
      match ts with
      | [] => .error "Load hitstory file"
      | f :: ts' => historyInfo ts' (some f) n
    else
      match t.toNat? with
      | none => .error "parsing arg into number"
      | some k => historyInfo ts r (some k)

/-- `PathBuf::join` for the strings involved here: an absolute right-hand
side replaces the base; an empty one leaves a trailing separator. -/
def joinPath (a b : String) : String :=
  if "/".isPrefixOf b then b
  else if b = "" then a ++ "/"
  else a ++ "/" ++ b

/-- A unix path is absolute when it starts with a slash. -/
def isAbsolute (p : String) : Bool := "/".isPrefixOf p

/-- `Path::starts_with("~")`: the first component is `~`. -/
def startsWithTilde (p : String) : Bool := p = "~" || "~/".isPrefixOf p

/-- `path.strip_prefix("~")`. -/
def stripTilde (p : String) : String := if p = "~" then "" else p.drop 2

/-- The `cd` built-in body (main.rs:187-204), given its path argument:
tilde expansion (fatal when the home directory is unavailable), then a
process-wide directory change whose failure is reported as a message and is
non-fatal. -/
def cdStep (os : Os) (cwd p : String) : LineOutcome × List String :=
  if startsWithTilde p then
    match os.homeDir with
    | none => (.fatal "get home dir", [])
    | some h =>
      let path := joinPath h (stripTilde p)
      if os.chdirOk path then (.cont, [])
      else (.cont, ["cd: " ++ path ++ ": No such file or directory"])
  else if isAbsolute p then
    if os.chdirOk p then (.cont, [])
    else (.cont, ["cd: " ++ p ++ ": No such file or directory"])
  else
    let newDir := joinPath cwd p
    if os.chdirOk newDir then (.cont, [])
    else (.cont, ["cd: " ++ newDir ++ ": No such file or directory"])

/-- `run_command` (main.rs:454-472): drive the `Parser` over the argument
tokens (a failing redirection open panics), then spawn and synchronously
wait; both failures propagate via `context(..)?`. -/
def run_command (os : Os) (args : List String) : LineOutcome × List String :=
  match parserRun os ⟨none, none⟩ args with
  | .error target => (.panicked target, [])
  | .ok _ =>
    if os.spawnMainOk then
      if os.waitMainOk then (.cont, [])
      else (.fatal "wait for child process", [])
    else (.fatal "spawn child process", [])

/-- One iteration of the read-eval loop (main.rs:159-246) on input `line`:
the outcome together with the lines printed to the terminal.  A line
containing a pipe goes to `execute_pipeline`, whose error is printed and
recovered (main.rs:165-167); otherwise the line is trimmed, tokenized, and
dispatched on `command_type` of its first token.  A missing first token
(`context("parsing command")?`), a missing `cd`/`type` argument, a history
parse failure, a failed write to a redirection file and a failed
spawn/wait all propagate out of `main`; a failed redirection open panics.
(The `history` listing itself is delegated to the line editor's state and
prints nothing in this model; `pwd` prints the given working directory.) -/
def mainStep (fs : List PathEntry) (os : Os) (cwd : String) (line : String) :
    LineOutcome × List String :=
  if line.data.contains '|' then
    match execute_pipeline fs os cwd (splitLine line) with
    | (tr, .error e) => (.cont, printsOf tr ++ ["Pipeline error: " ++ e])
    | (tr, .ok _) => (.cont, printsOf tr)
  else
    match (tokenize (trimChars line.data)).1 with
    | [] => (.fatal "parsing command", [])
    | com :: args =>
      match command_type fs com with
      | some .echo =>
        match parserRun os ⟨none, none⟩ args with
        | .error target => (.panicked target, [])
        | .ok (argList, st) =>
          let arg := joinSpace argList
          match st.stdout with
          | some (f, _) =>
            if os.fileWriteOk f then (.cont, []) else (.fatal "write to file", [])
          | none => (.cont, [arg])
      | some .cd =>
        match args.head? with
        | none => (.fatal "parsing path", [])
        | some p => cdStep os cwd p
      | some .pwd => (.cont, [cwd])
      | some .history =>
        match historyInfo args none none with
        | .error e => (.fatal e, [])
        | .ok _ => (.cont, [])
      | some (.program _) => run_command os args
      | some .exit => (.exitLoop, [])
      | some .type =>
        match args.head? with
        | none => (.fatal "parsing arg", [])
        | some name =>
          match command_type fs name with
          | some (.program p) => (.cont, [name ++ " is " ++ p])
          | some _ => (.cont, [name ++ " is a shell builtin"])
          | none => (.cont, [name ++ ": not found"])
      | none => (.cont, [com ++ ": command not found"])

/-! ## Concrete fixtures used by witnesses and counterexamples -/

/-- A search path with one readable directory holding three executables. -/
def fs1 : List PathEntry :=
  [⟨"/bin", true, some [⟨"cat", true⟩, ⟨"wc", true⟩, ⟨"ls", true⟩], false⟩]

/-- Oracle on which every buffered write into a child's stdin fails (the
consumer has exited; the pipe is broken). -/
def osW : Os := { os0 with writeOk := fun _ => false }

/-- Oracle on which every redirection file open fails. -/
def osNoOpen : Os := { os0 with openOk := fun _ => false }

/-- The line `echo 'abc` — the single quote is never closed. -/
def untermLine : String := String.mk (['e', 'c', 'h', 'o', ' '] ++ squote :: ['a', 'b', 'c'])

/-- The line `echo 'a b c` — unterminated quote containing spaces. -/
def untermLine2 : String :=
  String.mk (['e', 'c', 'h', 'o', ' '] ++ squote :: ['a', ' ', 'b', ' ', 'c'])

/-- The line `'a b'` — one quoted token containing a space. -/
def quotedLine : String := String.mk (squote :: 'a' :: ' ' :: 'b' :: [squote])

/-! ## Auxiliary notions used by the properties -/

/-- A character that is entirely ordinary to the tokenizer: not whitespace,
not a quote, not a backslash, not the comment character. -/
def plainChar (c : Char) : Bool :=
  !isWs c && c ≠ dquote && c ≠ squote && c ≠ bslash && c ≠ '#'

/-- Joining a list of words with single spaces (the re-join of §8 of the
spec), at the character level. -/
def joinWords : List (List Char) → List Char
  | [] => []
  | [w] => w
  | w :: ws => w ++ ' ' :: joinWords ws

/-- Re-joining a token sequence with single spaces. -/
def joinTokens (ts : List String) : List Char :=
  joinWords (ts.map String.data)

/-- An abstract description of a token sequence fed to the redirection
extractor: ordinary argument tokens interleaved with
operator-plus-target pairs. -/
inductive Item where
  | arg (s : String)
  | redir (op target : String)
deriving DecidableEq

/-- The token sequence denoted by an item list. -/
def itemTokens : List Item → List String
  | [] => []
  | .arg a :: rest => a :: itemTokens rest
  | .redir op t :: rest => op :: t :: itemTokens rest

/-- The argument tokens of an item list, in order. -/
def argsOf : List Item → List String
  | [] => []
  | .arg a :: rest => a :: argsOf rest
  | .redir _ _ :: rest => argsOf rest

/-- Folding the redirections of an item list into the parser state
(later operators overwrite earlier ones for the same stream). -/
def applyRedirs (st : RedirState) : List Item → RedirState
  | [] => st
  | .arg _ :: rest => applyRedirs st rest
  | .redir op t :: rest =>
    match opKind op with
    | some (true, m) => applyRedirs { st with stderr := some (t, m) } rest
    | some (false, m) => applyRedirs { st with stdout := some (t, m) } rest
    | none => applyRedirs st rest

/-- Arguments are not operator tokens, and every target can be opened. -/
def okItems (os : Os) : List Item → Bool
  | [] => true
  | .arg a :: rest => (opKind a).isNone && okItems os rest
  | .redir op t :: rest => (opKind op).isSome && os.openOk t && okItems os rest

/-- No redirection operator immediately follows another operator's target:
every `redir` item is last or followed by an `arg` item. -/
def wellSpaced : List Item → Bool
  | [] => true
  | .arg _ :: rest => wellSpaced rest
  | .redir _ _ :: [] => true
  | .redir _ _ :: .arg _ :: rest => wellSpaced rest
  | .redir _ _ :: .redir _ _ :: _ => false

/-- A PATH entry at which the search neither finds a match nor aborts: a
readable directory without a matching executable entry, or a non-directory
that is not an executable file of the searched name. -/
def entryPasses (com : String) (p : PathEntry) : Bool :=
  (if p.isDir then
     match p.entries with
     | none => false
     | some es => (findProgram p.path com es).isNone
   else true) &&
  (if p.exec then
     match fileNameOf p.path with
     | none => false
     | some n => n ≠ com
   else true)

/-! ## Helper lemmas -/

/-- Reaching a `cd`/`history`/`exit` stage makes the stage loop error
immediately (the `bail!` at main.rs:367), with an empty trace from that
stage on. -/
theorem stageLoop_disallowed (fs : List PathEntry) (os : Os) (cwd : String) (i : Nat)
    (cmd : String) (rest : List String) (children : List Nat) (prev : Option PipeOutput)
    (com : String) (args1 : List String)
    (htok : (tokenize cmd.data).1 = com :: args1)
    (hcom : com = "cd" ∨ com = "history" ∨ com = "exit") :
    stageLoop fs os cwd i (cmd :: rest) children prev
      = ([], .error (com ++ " cannot be used in pipelines")) := by
  rcases hcom with rfl | rfl | rfl <;> simp only [stageLoop, htok] <;> rfl

/-- A failing `write_all` into a freshly spawned stage's stdin (the `?` at
main.rs:341) errors out of the stage loop right after the spawn. -/
theorem stageLoop_broken_pipe (fs : List PathEntry) (os : Os) (cwd : String) (i : Nat)
    (cmd : String) (rest : List String) (children : List Nat)
    (com : String) (args1 : List String) (p content : String)
    (htok : (tokenize cmd.data).1 = com :: args1)
    (hres : command_type fs com = some (.program p))
    (hspawn : os.spawnOk i = true) (hwrite : os.writeOk i = false) :
    stageLoop fs os cwd i (cmd :: rest) children (some (.buffer content))
      = ([.spawn i], .error "broken pipe") := by
  simp only [stageLoop, htok, hres, hspawn, hwrite]
  rfl

/-- A PATH entry that neither matches nor aborts is skipped by the search. -/
theorem entryPasses_step (com : String) (p : PathEntry) (ps : List PathEntry)
    (h : entryPasses com p = true) :
    searchPath com (p :: ps) = searchPath com ps := by
  simp only [entryPasses, Bool.and_eq_true] at h
  obtain ⟨h1, h2⟩ := h
  simp only [searchPath]
  rcases hd : p.isDir with _ | _
  · rw [hd] at h1
    rcases he : p.exec with _ | _
    · simp
    · rw [he] at h2
      simp only [if_true] at h2
      rcases hf : fileNameOf p.path with _ | n
      · rw [hf] at h2; simp at h2
      · rw [hf] at h2
        simp only [decide_eq_true_eq] at h2
        simp [hf, h2]
  · rw [hd] at h1
    simp only [if_true] at h1
    rcases hes : p.entries with _ | es
    · rw [hes] at h1; simp at h1
    · rw [hes] at h1
      simp only [Option.isNone_iff_eq_none] at h1
      rcases he : p.exec with _ | _
      · simp [h1]
      · rw [he] at h2
        simp only [if_true] at h2
        rcases hf : fileNameOf p.path with _ | n
        · rw [hf] at h2; simp at h2
        · rw [hf] at h2
          simp only [decide_eq_true_eq] at h2
          simp [h1, hf, h2]

/-- An unreadable directory on the search path aborts the whole search:
whatever follows it is never scanned. -/
theorem searchPath_unreadable_aborts (com : String) (pre : List PathEntry) (d : PathEntry)
    (post : List PathEntry) (hpre : ∀ p ∈ pre, entryPasses com p = true)
    (hdir : d.isDir = true) (hent : d.entries = none) :
    searchPath com (pre ++ d :: post) = none := by
  induction pre with
  | nil => simp [searchPath, hdir, hent]
  | cons p pre ih =>
    have hp : entryPasses com p = true := hpre p (List.mem_cons_self p pre)
    rw [List.cons_append, entryPasses_step com p _ hp]
    exact ih fun x hx => hpre x (List.mem_cons_of_mem p hx)

/-- A name that is not a built-in goes to the PATH search. -/
theorem command_type_not_builtin (fs : List PathEntry) (com : String)
    (h : com ∉ shellBuiltins) :
    command_type fs com = searchPath com fs := by
  simp only [shellBuiltins, List.mem_cons, not_or] at h
  obtain ⟨h1, h2, h3, h4, h5, h6, _⟩ := h
  simp [command_type, h1, h2, h3, h4, h5, h6]

/-- Trace projections distribute over trace constructors. -/
theorem waitsOf_append (a b : List Event) : waitsOf (a ++ b) = waitsOf a ++ waitsOf b :=
  List.filterMap_append a b _

theorem waitsOf_spawn_cons (i : Nat) (tr : List Event) :
    waitsOf (.spawn i :: tr) = waitsOf tr := rfl

theorem waitsOf_write_cons (i : Nat) (tr : List Event) :
    waitsOf (.write i :: tr) = waitsOf tr := rfl

theorem waitsOf_runBuiltin_cons (i : Nat) (tr : List Event) :
    waitsOf (.runBuiltin i :: tr) = waitsOf tr := rfl

theorem waitsOf_print_cons (s : String) (tr : List Event) :
    waitsOf (.print s :: tr) = waitsOf tr := rfl

theorem waitsOf_wait_cons (i : Nat) (tr : List Event) :
    waitsOf (.wait i :: tr) = i :: waitsOf tr := rfl

theorem waitsOf_nil : waitsOf [] = [] := rfl

theorem spawnsOf_append (a b : List Event) : spawnsOf (a ++ b) = spawnsOf a ++ spawnsOf b :=
  List.filterMap_append a b _

theorem spawnsOf_spawn_cons (i : Nat) (tr : List Event) :
    spawnsOf (.spawn i :: tr) = i :: spawnsOf tr := rfl

theorem spawnsOf_write_cons (i : Nat) (tr : List Event) :
    spawnsOf (.write i :: tr) = spawnsOf tr := rfl

theorem spawnsOf_runBuiltin_cons (i : Nat) (tr : List Event) :
    spawnsOf (.runBuiltin i :: tr) = spawnsOf tr := rfl

theorem spawnsOf_print_cons (s : String) (tr : List Event) :
    spawnsOf (.print s :: tr) = spawnsOf tr := rfl

theorem spawnsOf_wait_cons (i : Nat) (tr : List Event) :
    spawnsOf (.wait i :: tr) = spawnsOf tr := rfl

theorem spawnsOf_nil : spawnsOf [] = [] := rfl

/-- A built-in stage only ever prints: its trace holds no wait and no spawn
events. -/
theorem builtin_evs_no_wait {fs : List PathEntry} {cwd com : String}
    {args : List String} {b : Bool} {evs : List Event} {res : Except String PipeOutput}
    (heq : execute_builtin_in_pipeline fs cwd com args b = (evs, res)) :
    waitsOf evs = [] ∧ spawnsOf evs = [] := by
  have h : waitsOf (execute_builtin_in_pipeline fs cwd com args b).1 = []
      ∧ spawnsOf (execute_builtin_in_pipeline fs cwd com args b).1 = [] := by
    unfold execute_builtin_in_pipeline
    constructor <;> (repeat' split) <;> simp [waitsOf, spawnsOf]
  rw [heq] at h
  exact h

/-- The stage loop never waits: reaping happens only in `waitLoop`, after
the stage loop has finished without error. -/
theorem stageLoop_no_wait (fs : List PathEntry) (os : Os) (cwd : String)
    (cmds : List String) :
    ∀ (i : Nat) (children : List Nat) (prev : Option PipeOutput),
      waitsOf (stageLoop fs os cwd i cmds children prev).1 = [] := by
  induction cmds with
  | nil => intro i children prev; rfl
  | cons cmd rest ih =>
    intro i children prev
    simp only [stageLoop]
    split
    · rfl
    · split <;>
        first
        | rfl
        | (split
           · rename_i heq
             simp only [waitsOf_runBuiltin_cons]
             exact (builtin_evs_no_wait heq).1
           · rename_i heq
             simp only [waitsOf_runBuiltin_cons, waitsOf_append,
               (builtin_evs_no_wait heq).1, List.nil_append, ih])
        | ((repeat' split) <;>
            simp only [waitsOf_nil, waitsOf_spawn_cons, waitsOf_write_cons, ih])

theorem pair_eta_ok {α β γ : Type} {x : α × Except γ β} {b : β} (h : x.2 = .ok b) :
    x = (x.1, .ok b) := by
  rw [← h]

/-- When the stage loop succeeds, the children vector it returns is exactly
the accumulated children followed by the stages it spawned, in spawn
order. -/
theorem stageLoop_children (fs : List PathEntry) (os : Os) (cwd : String)
    (cmds : List String) :
    ∀ (i : Nat) (children : List Nat) (prev : Option PipeOutput)
      (tr : List Event) (ch : List Nat),
      stageLoop fs os cwd i cmds children prev = (tr, .ok ch) →
      ch = children ++ spawnsOf tr := by
  induction cmds with
  | nil =>
    intro i children prev tr ch h
    simp only [stageLoop, Prod.mk.injEq, Except.ok.injEq] at h
    simp [← h.1, ← h.2, spawnsOf_nil]
  | cons cmd rest ih =>
    intro i children prev tr ch h
    simp only [stageLoop] at h
    split at h
    · simp at h
    · split at h
      case h_5 => simp at h
      case h_6 => simp at h
      case h_7 => simp at h
      case h_8 => simp at h
      case h_4 =>
        split at h <;> (repeat' split at h) <;>
          first
          | (simp at h; done)
          | (simp only [Prod.mk.injEq] at h
             obtain ⟨h1, h2⟩ := h
             subst h1
             have hr := ih _ _ _ _ _ (pair_eta_ok h2)
             simp [hr, spawnsOf_spawn_cons, spawnsOf_write_cons, List.append_assoc])
      all_goals
        (split at h
         · simp at h
         · rename_i heq
           simp only [Prod.mk.injEq] at h
           obtain ⟨h1, h2⟩ := h
           subst h1
           have hr := ih _ _ _ _ _ (pair_eta_ok h2)
           simp only [hr, spawnsOf_runBuiltin_cons, spawnsOf_append,
             (builtin_evs_no_wait heq).2, List.nil_append])

/-- A successful reap loop waits on exactly the given children, in order. -/
theorem waitLoop_ok_waits (os : Os) :
    ∀ (l : List Nat), (waitLoop os l).2 = .ok () → waitsOf (waitLoop os l).1 = l := by
  intro l
  induction l with
  | nil => intro _; rfl
  | cons c cs ih =>
    intro h
    simp only [waitLoop] at h ⊢
    rcases hw : os.waitOk c with _ | _
    · rw [hw] at h; simp at h
    · rw [hw] at h
      have h' : (waitLoop os cs).2 = .ok () := by simpa using h
      show waitsOf (Event.wait c :: (waitLoop os cs).1) = c :: cs
      rw [waitsOf_wait_cons, ih h']

/-- The reap loop spawns nothing. -/
theorem waitLoop_spawns (os : Os) :
    ∀ (l : List Nat), spawnsOf (waitLoop os l).1 = [] := by
  intro l
  induction l with
  | nil => rfl
  | cons c cs ih =>
    simp only [waitLoop]
    rcases hw : os.waitOk c with _ | _
    · rfl
    · show spawnsOf (Event.wait c :: (waitLoop os cs).1) = []
      rw [spawnsOf_wait_cons, ih]

/-- The only error the reap loop can produce. -/
theorem waitLoop_error_msg (os : Os) :
    ∀ (l : List Nat) (e : String), (waitLoop os l).2 = .error e → e = "wait for process" := by
  intro l
  induction l with
  | nil => intro e h; simp [waitLoop] at h
  | cons c cs ih =>
    intro e h
    simp only [waitLoop] at h
    rcases hw : os.waitOk c with _ | _
    · rw [hw] at h
      simp at h
      exact h.symm
    · rw [hw] at h
      have h' : (waitLoop os cs).2 = .error e := by simpa using h
      exact ih e h'

/-- Claim C2 (amended): when `execute_pipeline` returns without error, the
engine has waited exactly once on every spawned process, in reverse spawn
order.  When the pipeline aborts during stage processing (disallowed
built-in, unresolved command, parse failure, stage spawn failure, or a
failed buffered write), only the remaining unstarted stages are skipped,
but already-spawned processes are *not* reaped: the function returns the
error before its wait loop, so the trace holds no wait events at all. -/
theorem pipeline_reaping :
    (∀ (fs : List PathEntry) (os : Os) (cwd : String) (cmds : List String),
       (execute_pipeline fs os cwd cmds).2 = .ok () →
       waitsOf (execute_pipeline fs os cwd cmds).1
         = (spawnsOf (execute_pipeline fs os cwd cmds).1).reverse)
    ∧ (∀ (fs : List PathEntry) (os : Os) (cwd : String) (cmds : List String) (e : String),
       (execute_pipeline fs os cwd cmds).2 = .error e → e ≠ "wait for process" →
       waitsOf (execute_pipeline fs os cwd cmds).1 = []) := by
  constructor
  · intro fs os cwd cmds h
    simp only [execute_pipeline] at h ⊢
    rcases hlt : decide (cmds.length < 2) with _ | _
    · rw [if_neg (of_decide_eq_false hlt)] at h ⊢
      rcases hsl : stageLoop fs os cwd 0 cmds [] none with ⟨tr, r⟩
      rw [hsl] at h
      rcases r with e | children
      · simp at h
      · have h' : (waitLoop os children.reverse).2 = .ok () := by simpa using h
        have hch : children = [] ++ spawnsOf tr :=
          stageLoop_children fs os cwd cmds 0 [] none tr children hsl
        rw [List.nil_append] at hch
        have hnw : waitsOf tr = [] := by
          have hh := stageLoop_no_wait fs os cwd cmds 0 [] none
          rw [hsl] at hh; exact hh
        show waitsOf (tr ++ (waitLoop os children.reverse).1)
          = (spawnsOf (tr ++ (waitLoop os children.reverse).1)).reverse
        rw [waitsOf_append, hnw, List.nil_append, waitLoop_ok_waits os children.reverse h',
          spawnsOf_append, waitLoop_spawns, List.append_nil, ← hch]
    · rw [if_pos (of_decide_eq_true hlt)] at h
      simp at h
  · intro fs os cwd cmds e h hne
    simp only [execute_pipeline] at h ⊢
    rcases hlt : decide (cmds.length < 2) with _ | _
    · rw [if_neg (of_decide_eq_false hlt)] at h ⊢
      rcases hsl : stageLoop fs os cwd 0 cmds [] none with ⟨tr, r⟩
      rw [hsl] at h
      rcases r with e' | children
      · have hnw : waitsOf tr = [] := by
          have hh := stageLoop_no_wait fs os cwd cmds 0 [] none
          rw [hsl] at hh; exact hh
        exact hnw
      · have h' : (waitLoop os children.reverse).2 = .error e := by simpa using h
        exact absurd (waitLoop_error_msg os children.reverse e h') hne
    · rw [if_pos (of_decide_eq_true hlt)] at h ⊢
      rfl

/-! ## Tokenizer re-join lemmas -/

theorem plainChar_props {c : Char} (h : plainChar c = true) :
    isWs c = false ∧ ¬c = dquote ∧ ¬c = squote ∧ ¬c = bslash ∧ ¬c = '#' := by
  simp only [plainChar, Bool.and_eq_true, Bool.not_eq_true', decide_eq_true_eq] at h
  exact ⟨h.1.1.1.1, h.1.1.1.2, h.1.1.2, h.1.2, h.2⟩

theorem tokLoop_word_plain_end (w : List Char) :
    ∀ (acc : List Char) (toks : List String), w.all plainChar = true →
      tokLoop .word acc toks w = (toks ++ [String.mk (acc ++ w)], false) := by
  induction w with
  | nil => intro acc toks _; simp [tokLoop]
  | cons c w ih =>
    intro acc toks h
    simp only [List.all_cons, Bool.and_eq_true] at h
    obtain ⟨hws, hd, hs, hb, _⟩ := plainChar_props h.1
    rw [tokLoop.eq_def]
    simp only [hws, hd, hs, hb, Bool.false_eq_true, if_false,
      ih (acc ++ [c]) toks h.2, List.append_assoc, List.singleton_append]

theorem tokLoop_word_plain_space (w : List Char) :
    ∀ (acc : List Char) (toks : List String) (rest : List Char), w.all plainChar = true →
      tokLoop .word acc toks (w ++ ' ' :: rest)
        = tokLoop .skip [] (toks ++ [String.mk (acc ++ w)]) rest := by
  induction w with
  | nil =>
    intro acc toks rest _
    rw [List.nil_append, tokLoop.eq_def]
    simp [isWs]
  | cons c w ih =>
    intro acc toks rest h
    simp only [List.all_cons, Bool.and_eq_true] at h
    obtain ⟨hws, hd, hs, hb, _⟩ := plainChar_props h.1
    rw [List.cons_append, tokLoop.eq_def]
    simp only [hws, hd, hs, hb, Bool.false_eq_true, if_false,
      ih (acc ++ [c]) toks rest h.2, List.append_assoc, List.singleton_append]

theorem tokLoop_skip_joinWords (ws : List (List Char)) :
    ∀ (toks : List String), (∀ w ∈ ws, w ≠ [] ∧ w.all plainChar = true) →
      tokLoop .skip [] toks (joinWords ws) = (toks ++ ws.map String.mk, false) := by
  induction ws using joinWords.induct with
  | case1 => intro toks _; simp [joinWords, tokLoop]
  | case2 w =>
    intro toks h
    obtain ⟨hne, hpl⟩ := h w (List.mem_singleton_self w)
    rcases w with _ | ⟨c, w⟩
    · exact absurd rfl hne
    · simp only [List.all_cons, Bool.and_eq_true] at hpl
      obtain ⟨hws, hd, hs, hb, hh⟩ := plainChar_props hpl.1
      have hjw : joinWords [c :: w] = c :: w := rfl
      rw [hjw, tokLoop.eq_def]
      simp only [hws, hd, hs, hb, hh, Bool.false_eq_true, if_false,
        tokLoop_word_plain_end w [c] toks hpl.2, List.singleton_append, List.map_cons,
        List.map_nil]
  | case3 w ws hne ih =>
    intro toks h
    obtain ⟨hwne, hpl⟩ := h w (List.mem_cons_self w ws)
    rcases hws' : ws with _ | ⟨w2, ws'⟩
    · exact absurd hws' hne
    · subst hws'
      rcases w with _ | ⟨c, w⟩
      · exact absurd rfl hwne
      · simp only [List.all_cons, Bool.and_eq_true] at hpl
        obtain ⟨hwsp, hd, hs, hb, hh⟩ := plainChar_props hpl.1
        have hrest : ∀ x ∈ w2 :: ws', x ≠ [] ∧ x.all plainChar = true :=
          fun x hx => h x (List.mem_cons_of_mem _ hx)
        have hjw : joinWords ((c :: w) :: w2 :: ws') = (c :: w) ++ ' ' :: joinWords (w2 :: ws') :=
          rfl
        rw [hjw, List.cons_append, tokLoop.eq_def]
        simp only [hwsp, hd, hs, hb, hh, Bool.false_eq_true, if_false,
          tokLoop_word_plain_space w [c] toks (joinWords (w2 :: ws')) hpl.2,
          ih (toks ++ [String.mk (c :: w)]) hrest, List.singleton_append, List.map_cons,
          List.append_assoc, List.cons_append, List.nil_append]

/-! ## Claims -/

/-- Claim C1 (code divergence): the spec says every ParseError,
ResolutionError, RuntimeError and PipelineError is reported and the
read-eval loop continues.  In the code only pipeline errors are caught
(main.rs:165-167); an empty input line and a `cd` without argument
propagate a `context(..)` error out of `main` through `?`, and a
redirection target that cannot be opened panics on `unwrap`
(main.rs:498) — all three terminate the interpreter instead of leaving the
loop running. -/
theorem line_errors_terminate_interpreter :
    mainStep [] os0 "/" "" = (.fatal "parsing command", [])
    ∧ mainStep [] os0 "/" "cd" = (.fatal "parsing path", [])
    ∧ mainStep [] osNoOpen "/" "echo hi > out.txt" = (.panicked "out.txt", [])
    ∧ mainStep [] os0 "/" "nosuch | nosuch2"
        = (.cont, ["Pipeline error: nosuch: command not found"]) :=
  ⟨rfl, rfl, rfl, rfl⟩

/-- Counterexample to claim C2 as stated: in the pipeline `cat | cd /`, the
first stage is spawned, the second stage aborts the pipeline, and the
already-spawned child is never waited on. -/
theorem pipeline_abort_leaves_child_unreaped :
    execute_pipeline fs1 os0 "/" ["cat", "cd /"]
      = ([.spawn 0], .error "cd cannot be used in pipelines")
    ∧ spawnsOf (execute_pipeline fs1 os0 "/" ["cat", "cd /"]).1 = [0]
    ∧ waitsOf (execute_pipeline fs1 os0 "/" ["cat", "cd /"]).1 = [] :=
  ⟨rfl, rfl, rfl⟩

/-- Witness for claim C2: a successful two-stage pipeline reaps its one
spawned process in reverse order, and the aborted broken-pipe pipeline
reaps nothing. -/
theorem pipeline_reaping_witness :
    waitsOf (execute_pipeline fs1 os0 "/" ["echo hi", "cat"]).1
      = (spawnsOf (execute_pipeline fs1 os0 "/" ["echo hi", "cat"]).1).reverse
    ∧ waitsOf (execute_pipeline fs1 osW "/" ["echo hi", "cat", "wc"]).1 = [] :=
  ⟨pipeline_reaping.1 fs1 os0 "/" ["echo hi", "cat"] rfl,
   pipeline_reaping.2 fs1 osW "/" ["echo hi", "cat", "wc"] "broken pipe" rfl (by decide)⟩

/-- Counterexample to claim C3 as stated: the line `a |` splits into the
*two* segments `["a", ""]`, not fewer than two, so the guard does not fire;
the pipeline instead fails later, here on the unresolvable first segment. -/
theorem split_short_line_not_too_short :
    splitLine "a |" = ["a", ""]
    ∧ ¬(splitLine "a |").length < 2
    ∧ execute_pipeline [] os0 "/" (splitLine "a |") = ([], .error "a: command not found") :=
  ⟨rfl, by decide, rfl⟩

/-- Claim C3 (amended): splitting trims whitespace per segment, so
`split("a | b | c")` is `["a","b","c"]`; `execute_pipeline` rejects fewer
than two segments with the pipeline-too-short error; but a split of a line
that contains a pipe character always yields at least two segments — in
particular `split("a |")` is `["a",""]`, which is executed (and fails with
a different error on its empty or unresolvable segments). -/
theorem split_trims_and_guards_min_length :
    splitLine "a | b | c" = ["a", "b", "c"]
    ∧ (∀ (fs : List PathEntry) (os : Os) (cwd : String) (cmds : List String),
        cmds.length < 2 →
        execute_pipeline fs os cwd cmds
          = ([], .error "Pipeline must have at least 2 commands"))
    ∧ splitLine "a |" = ["a", ""] := by
  refine ⟨rfl, ?_, rfl⟩
  intro fs os cwd cmds h
  simp [execute_pipeline, h]

/-- Witness for claim C3: the guard fires on a one-segment command list. -/
theorem split_trims_and_guards_min_length_witness :
    execute_pipeline [] os0 "/" ["solo"]
      = ([], .error "Pipeline must have at least 2 commands") :=
  split_trims_and_guards_min_length.2.1 [] os0 "/" ["solo"] (by decide)

/-- Counterexample to claim C4 as stated: on the line `echo 'abc` (with an
unterminated single quote) the tokenizer sets only its internal flag; the
shell reports nothing and behaves exactly as on `echo abc`. -/
theorem unterminated_quote_not_reported :
    (tokenize untermLine.data).2 = true
    ∧ mainStep [] os0 "/" untermLine = (.cont, ["abc"])
    ∧ mainStep [] os0 "/" untermLine = mainStep [] os0 "/" "echo abc" :=
  ⟨rfl, rfl, rfl⟩

/-- Claim C4 (amended): tokenization is total and never signals any error
to the user.  An unterminated quote sets an internal best-effort flag that
no call site reads; the quoted run is taken to extend to the end of the
line and the resulting tokens are processed like any other line. -/
theorem tokenize_total_best_effort :
    tokenize untermLine.data = (["echo", "abc"], true)
    ∧ tokenize untermLine2.data = (["echo", "a b c"], true)
    ∧ mainStep [] os0 "/" untermLine = (.cont, ["abc"]) :=
  ⟨rfl, rfl, rfl⟩

/-- Counterexample to claim C5 as stated: a redirection operator with no
following target token produces no `MissingRedirectionTarget` report;
extraction returns the preceding arguments with no error and no target, and
the whole `echo hi >` line prints `hi` as if the operator were absent. -/
theorem trailing_operator_reports_no_error :
    parserRun os0 ⟨none, none⟩ ["hi", ">"] = .ok (["hi"], ⟨none, none⟩)
    ∧ mainStep [] os0 "/" "echo hi >" = (.cont, ["hi"]) :=
  ⟨rfl, rfl⟩

/-- Claim C5 (amended): when a redirection operator is the last token, the
`?` on `self.shlex.next()` inside `Parser::next` silently ends the
iteration: the operator is consumed, no target is recorded, no error is
reported, and the preceding tokens are the arguments. -/
theorem trailing_redirect_operator_silent (os : Os) (st : RedirState)
    (args : List String) (op : String)
    (h1 : ∀ a ∈ args, opKind a = none) (h2 : (opKind op).isSome = true) :
    parserRun os st (args ++ [op]) = .ok (args, st) := by
  induction args generalizing st with
  | nil =>
    rcases hop : opKind op with _ | pr
    · rw [hop] at h2; simp at h2
    · simp [parserRun, hop]
  | cons a args ih =>
    have ha : opKind a = none := h1 a (List.mem_cons_self a args)
    have ht : ∀ x ∈ args, opKind x = none := fun x hx => h1 x (List.mem_cons_of_mem a hx)
    simp only [List.cons_append, parserRun, ha, ih st ht]

/-- Witness for claim C5. -/
theorem trailing_redirect_operator_silent_witness :
    parserRun os0 ⟨none, none⟩ (["hi"] ++ [">"]) = .ok (["hi"], ⟨none, none⟩) :=
  trailing_redirect_operator_silent os0 ⟨none, none⟩ ["hi"] ">" (by decide) (by decide)

/-- Counterexample to claim C6 as stated: in `hi > a 2> b` the `2>`
operator immediately follows the target of `>`, is yielded as an ordinary
argument, and its target `b` stays an argument too — stderr is never
redirected, contrary to the claim that operators may appear interleaved
with two consecutive operators for different streams. -/
theorem adjacent_operator_kept_as_argument :
    parserRun os0 ⟨none, none⟩ ["hi", ">", "a", "2>", "b"]
      = .ok (["hi", "2>", "b"], ⟨some ("a", .truncate), none⟩) :=
  rfl

/-- Claim C6 (amended): extraction on `["hi", ">", "out.txt"]` yields the
stdout target `out.txt` in truncate mode and remaining arguments `["hi"]`;
and operators interleaved with arguments are each consumed together with
their following target, every other token being kept as an argument in
order, *provided* no operator token immediately follows another operator's
target (an operator in that position is yielded as a plain argument
instead). -/
theorem redirection_extraction (os : Os) (st : RedirState) (items : List Item)
    (h1 : okItems os items = true) (h2 : wellSpaced items = true) :
    parserRun os st (itemTokens items) = .ok (argsOf items, applyRedirs st items) := by
  induction items using wellSpaced.induct generalizing st with
  | case1 => rfl
  | case2 a rest ih =>
    simp only [okItems, Bool.and_eq_true] at h1
    simp only [wellSpaced] at h2
    rcases hop : opKind a with _ | pr
    · simp only [itemTokens, parserRun, hop, argsOf, applyRedirs, ih st h1.2 h2]
    · rw [hop] at h1; simp at h1
  | case3 op t =>
    simp only [okItems, Bool.and_eq_true] at h1
    rcases hop : opKind op with _ | ⟨isErr, m⟩
    · rw [hop] at h1; simp at h1
    · have hopen : os.openOk t = true := h1.1.2
      rcases isErr with _ | _ <;>
        simp [itemTokens, parserRun, hop, hopen, argsOf, applyRedirs]
  | case4 op t a rest ih =>
    simp only [okItems, Bool.and_eq_true] at h1
    simp only [wellSpaced] at h2
    rcases hop : opKind op with _ | ⟨isErr, m⟩
    · rw [hop] at h1; simp at h1
    · have hopen : os.openOk t = true := h1.1.2
      rcases isErr with _ | _
      · simp only [itemTokens, parserRun, hop, hopen, if_true,
          Bool.false_eq_true, if_false,
          ih { st with stdout := some (t, m) } h1.2.2 h2, argsOf, applyRedirs]
      · simp only [itemTokens, parserRun, hop, hopen, if_true,
          ih { st with stderr := some (t, m) } h1.2.2 h2, argsOf, applyRedirs]
  | case5 op t op2 t2 rest => simp [wellSpaced] at h2

/-- Witness for claim C6: the spec example `["hi", ">", "out.txt"]`. -/
theorem redirection_extraction_witness :
    parserRun os0 ⟨none, none⟩ ["hi", ">", "out.txt"]
      = .ok (["hi"], ⟨some ("out.txt", .truncate), none⟩) :=
  redirection_extraction os0 ⟨none, none⟩ [.arg "hi", .redir ">" "out.txt"]
    (by decide) (by decide)

/-- Claim C7: when the stage loop reaches a stage whose command name is
`cd`, `history` or `exit`, it fails immediately with an error naming that
command; no process is spawned for that stage or any later stage (its trace
from that stage on is empty).  Concretely, `echo hi | cd /tmp | wc` runs
only the echo built-in and aborts. -/
theorem pipeline_disallowed_builtin :
    (∀ (fs : List PathEntry) (os : Os) (cwd : String) (i : Nat) (cmd : String)
       (rest : List String) (children : List Nat) (prev : Option PipeOutput)
       (com : String) (args1 : List String),
       (tokenize cmd.data).1 = com :: args1 →
       com = "cd" ∨ com = "history" ∨ com = "exit" →
       stageLoop fs os cwd i (cmd :: rest) children prev
         = ([], .error (com ++ " cannot be used in pipelines")))
    ∧ execute_pipeline [] os0 "/" ["echo hi", "cd /tmp", "wc"]
        = ([.runBuiltin 0], .error "cd cannot be used in pipelines") :=
  ⟨stageLoop_disallowed, rfl⟩

/-- Witness for claim C7. -/
theorem pipeline_disallowed_builtin_witness :
    stageLoop [] os0 "/" 1 ["history"] [] none
      = ([], .error "history cannot be used in pipelines") :=
  pipeline_disallowed_builtin.1 [] os0 "/" 1 "history" [] [] none "history" [] rfl
    (Or.inr (Or.inl rfl))

/-- Counterexample to claim C8 as stated: with the pipe to stage 1 broken,
`echo hi | cat | wc` spawns stage 1, the buffered write fails, and the
pipeline aborts — stage 2 never runs and the spawned stage is never
reaped, so the error is fatal rather than non-fatal. -/
theorem buffered_write_failure_aborts :
    execute_pipeline fs1 osW "/" ["echo hi", "cat", "wc"]
      = ([.runBuiltin 0, .spawn 1], .error "broken pipe")
    ∧ waitsOf (execute_pipeline fs1 osW "/" ["echo hi", "cat", "wc"]).1 = [] :=
  ⟨rfl, rfl⟩

/-- Claim C8 (amended): when a buffering built-in's captured output is
written into the next stage's input stream and the write fails with a
broken-stream error, the error is fatal for the pipeline: the `?` on
`write_all` (main.rs:341) returns it immediately, the remaining stages are
skipped and already-spawned processes are not reaped. -/
theorem buffered_write_failure_fatal :
    (∀ (fs : List PathEntry) (os : Os) (cwd : String) (i : Nat) (cmd : String)
       (rest : List String) (children : List Nat) (com : String)
       (args1 : List String) (p content : String),
       (tokenize cmd.data).1 = com :: args1 →
       command_type fs com = some (.program p) →
       os.spawnOk i = true → os.writeOk i = false →
       stageLoop fs os cwd i (cmd :: rest) children (some (.buffer content))
         = ([.spawn i], .error "broken pipe"))
    ∧ execute_pipeline fs1 osW "/" ["echo hi", "cat", "wc"]
        = ([.runBuiltin 0, .spawn 1], .error "broken pipe") :=
  ⟨stageLoop_broken_pipe, rfl⟩

/-- Witness for claim C8. -/
theorem buffered_write_failure_fatal_witness :
    stageLoop fs1 osW "/" 1 ["cat"] [0] (some (.buffer "hi\n"))
      = ([.spawn 1], .error "broken pipe") :=
  buffered_write_failure_fatal.1 fs1 osW "/" 1 "cat" [] [0] "cat" [] "/bin/cat" "hi\n"
    rfl rfl rfl rfl

/-- Counterexample to claim C9 as stated: the line `'a b'` (balanced
quotes) tokenizes to the single token `a b`; re-joining with single spaces
and re-tokenizing yields `["a","b"]`, a different sequence. -/
theorem retokenize_differs_on_quoted_token :
    tokenize quotedLine.data = (["a b"], false)
    ∧ tokenize (joinTokens (tokenize quotedLine.data).1) = (["a", "b"], false)
    ∧ (["a", "b"] : List String) ≠ ["a b"] :=
  ⟨rfl, rfl, by decide⟩

/-- Claim C9 (amended): for a line with balanced quotes whose tokens are
all nonempty and consist only of ordinary characters (no whitespace,
quotes, backslashes or comment characters), tokenizing, re-joining with
single spaces and re-tokenizing reproduces the same token sequence. -/
theorem tokenize_rejoin_plain (cs : List Char)
    (_hbal : (tokenize cs).2 = false)
    (hplain : ∀ t ∈ (tokenize cs).1, t.data ≠ [] ∧ t.data.all plainChar = true) :
    tokenize (joinTokens (tokenize cs).1) = ((tokenize cs).1, false) := by
  have hws : ∀ w ∈ (tokenize cs).1.map String.data, w ≠ [] ∧ w.all plainChar = true := by
    intro w hw
    obtain ⟨t, ht, rfl⟩ := List.mem_map.1 hw
    exact hplain t ht
  have h := tokLoop_skip_joinWords ((tokenize cs).1.map String.data) [] hws
  have hmap : ((tokenize cs).1.map String.data).map String.mk = (tokenize cs).1 := by
    rw [List.map_map]
    have hid : (String.mk ∘ String.data) = id := funext fun t => rfl
    rw [hid, List.map_id]
  calc tokenize (joinTokens (tokenize cs).1)
      = tokLoop .skip [] [] (joinWords ((tokenize cs).1.map String.data)) := rfl
    _ = ([] ++ ((tokenize cs).1.map String.data).map String.mk, false) := h
    _ = ((tokenize cs).1, false) := by rw [List.nil_append, hmap]

/-- Witness for claim C9. -/
theorem tokenize_rejoin_plain_witness :
    tokenize (joinTokens (tokenize "echo hi".data).1) = ((tokenize "echo hi".data).1, false) :=
  tokenize_rejoin_plain "echo hi".data rfl (by decide)

/-- Claim C10: during resolution of a non-built-in name, a search-path
directory that exists but cannot be read aborts the whole search with
`none` (later entries are never scanned, provided the earlier entries
neither matched nor aborted); a readable directory entry matches by file
stem, so `foo` resolves an executable entry `foo.sh` (the code is
platform-independent here); and a search-path entry that is itself a file
matches only by its full file name: `foo` does not resolve the file
`/opt/foo.sh`, while `foo.sh` does. -/
theorem command_resolution_search :
    (∀ (com : String) (pre : List PathEntry) (d : PathEntry) (post : List PathEntry),
       (∀ p ∈ pre, entryPasses com p = true) → d.isDir = true → d.entries = none →
       searchPath com (pre ++ d :: post) = none)
    ∧ (∀ (dir : String) (e : DirEntry) (rest : List PathEntry) (com : String),
       com ∉ shellBuiltins → fileStem e.name = com → e.exec = true →
       command_type (⟨dir, true, some [e], false⟩ :: rest) com
         = some (.program (dir ++ "/" ++ e.name)))
    ∧ searchPath "foo" [⟨"/opt/foo.sh", false, none, true⟩] = none
    ∧ command_type [⟨"/opt/foo.sh", false, none, true⟩] "foo.sh"
        = some (.program "/opt/foo.sh") := by
  refine ⟨searchPath_unreadable_aborts, ?_, by decide, by decide⟩
  intro dir e rest com hb hstem hexec
  rw [command_type_not_builtin _ _ hb]
  simp [searchPath, findProgram, hstem, hexec]

/-- Witness for claim C10: the unreadable directory hides a matching entry
in a later directory; the stem match resolves `foo` to `/usr/bin/foo.sh`. -/
theorem command_resolution_search_witness :
    searchPath "foo"
        ((⟨"/unreadable", true, none, false⟩ : PathEntry)
          :: [⟨"/bin", true, some [⟨"foo", true⟩], false⟩]) = none
    ∧ command_type [⟨"/usr/bin", true, some [⟨"foo.sh", true⟩], false⟩] "foo"
        = some (.program "/usr/bin/foo.sh") :=
  ⟨command_resolution_search.1 "foo" [] ⟨"/unreadable", true, none, false⟩
      [⟨"/bin", true, some [⟨"foo", true⟩], false⟩] (by simp) rfl rfl,
   command_resolution_search.2.1 "/usr/bin" ⟨"foo.sh", true⟩ [] "foo"
     (by decide) (by decide) rfl⟩
